import Mathlib

/-!
Shallow embedding of the HubbleStack Nova `pkg` audit module
(`hubblestack_nova/pkg.py`), Python 2.

Python dicts whose values are strings are modelled as association lists
(`Dict`), with lookup taking the first matching key; dicts built by the
program never carry duplicate keys, so this coincides with Python
semantics.  `dUpdate` models `dict.update` (right side wins on lookups),
`dPop` models `dict.pop(key)` ignoring the returned value, `dSet` models
`d[key] = value`.
-/

namespace Nova

abbrev Dict := List (String × String)

/-- First-match association-list lookup: `d.get(key)` / `d[key]`. -/
def alookup {α : Type} : List (String × α) → String → Option α
  | [], _ => none
  | (k, v) :: rest, key => if k = key then some v else alookup rest key

/-- `key in d`. -/
def dHas (d : Dict) (k : String) : Bool := (alookup d k).isSome

/-- `d.pop(key)` (the mapping after removal). -/
def dPop {α : Type} : List (String × α) → String → List (String × α)
  | [], _ => []
  | kv :: rest, k => if kv.1 = k then dPop rest k else kv :: dPop rest k

/-- `d[key] = value`: replace in place, or append when the key is new. -/
def dSet : Dict → String → String → Dict
  | [], k, v => [(k, v)]
  | kv :: rest, k, v => if kv.1 = k then (k, v) :: rest else kv :: dSet rest k v

/-- `base.update(upd)`: existing keys keep their place with the new value,
new keys are appended.  On lookups the right side wins. -/
def dUpdate (base upd : Dict) : Dict :=
  base.map (fun kv => (kv.1, ((alookup upd kv.1).getD kv.2))) ++
    upd.filter (fun kv => !(dHas base kv.1))

theorem alookup_append {α : Type} (a b : List (String × α)) (k : String) :
    alookup (a ++ b) k = (alookup a k).orElse (fun _ => alookup b k) := by
  induction a with
  | nil => simp [alookup]
  | cons kv rest ih =>
      by_cases h : kv.1 = k <;> simp [alookup, h, ih]

theorem alookup_overlay (base upd : Dict) (k : String) :
    alookup (base.map (fun kv => (kv.1, ((alookup upd kv.1).getD kv.2)))) k
      = (alookup base k).map (fun v => (alookup upd k).getD v) := by
  induction base with
  | nil => simp [alookup]
  | cons kv rest ih =>
      by_cases h : kv.1 = k
      · subst h; simp [alookup, ih]
      · simp [alookup, h, ih]

theorem alookup_filter_not_has (base upd : Dict) (k : String) :
    alookup (upd.filter (fun kv => !(dHas base kv.1))) k
      = if dHas base k then none else alookup upd k := by
  induction upd with
  | nil => simp [alookup]
  | cons kv rest ih =>
      by_cases h : kv.1 = k
      · subst h
        by_cases hb : dHas base kv.1 <;> simp [alookup, hb, ih]
      · by_cases hb : dHas base kv.1 <;> simp [alookup, h, hb, ih]

/-- Lookup law for `dict.update`: the updating dict wins. -/
theorem alookup_dUpdate (base upd : Dict) (k : String) :
    alookup (dUpdate base upd) k = (alookup upd k).orElse (fun _ => alookup base k) := by
  unfold dUpdate
  rw [alookup_append, alookup_overlay, alookup_filter_not_has]
  cases hb : alookup base k with
  | some v => cases hu : alookup upd k <;> simp [hu]
  | none =>
      have hd : dHas base k = false := by simp [dHas, hb]
      rw [hd]
      cases hu : alookup upd k <;> simp [hu]

/-- Lookup law for `dict.pop`. -/
theorem alookup_dPop {α : Type} (d : List (String × α)) (k k' : String) :
    alookup (dPop d k) k' = if k' = k then none else alookup d k' := by
  induction d with
  | nil => simp [alookup, dPop]
  | cons kv rest ih =>
      by_cases h1 : kv.1 = k
      · rw [show dPop (kv :: rest) k = dPop rest k by simp [dPop, h1], ih]
        by_cases h2 : k' = k
        · simp [h2]
        · have h3 : ¬ kv.1 = k' := by rw [h1]; intro h; exact h2 h.symm
          simp [alookup, h2, h3]
      · rw [show dPop (kv :: rest) k = kv :: dPop rest k by simp [dPop, h1]]
        by_cases h2 : kv.1 = k'
        · have h3 : ¬ k' = k := by rw [← h2]; intro h; exact h1 h
          simp [alookup, h2, h3]
        · simp [alookup, h2, ih]

/-- Lookup law for `d[key] = value`. -/
theorem alookup_dSet (d : Dict) (k v k' : String) :
    alookup (dSet d k v) k' = if k' = k then some v else alookup d k' := by
  induction d with
  | nil =>
      by_cases h : k' = k
      · simp [alookup, dSet, h]
      · have h2 : ¬ k = k' := fun hh => h hh.symm
        simp [alookup, dSet, h, h2]
  | cons kv rest ih =>
      by_cases h1 : kv.1 = k
      · rw [show dSet (kv :: rest) k v = (k, v) :: rest by simp [dSet, h1]]
        by_cases h2 : k' = k
        · simp [alookup, h2]
        · have h3 : ¬ k = k' := fun hh => h2 hh.symm
          have h4 : ¬ kv.1 = k' := by rw [h1]; exact h3
          simp [alookup, h2, h3, h4]
      · rw [show dSet (kv :: rest) k v = kv :: dSet rest k v by simp [dSet, h1]]
        by_cases h2 : kv.1 = k'
        · have h3 : ¬ k' = k := by rw [← h2]; intro h; exact h1 h
          simp [alookup, h2, h3]
        · simp [alookup, h2, ih]

/-! ## `distutils.version.LooseVersion` (Python 2) -/

/-- A parsed LooseVersion component: `int(x)` when that succeeds, else the
string itself. -/
inductive LVTok : Type
  | num (n : Nat)
  | str (s : String)
deriving DecidableEq

/-- Character class under `re.split(r'(\d+|[a-z]+|\.)', s)`: digits,
lowercase letters and dots each form their own components; every other
character lands in the in-between fragments. -/
def charClass (c : Char) : Nat :=
  if c.isDigit then 0
  else if 'a' ≤ c ∧ c ≤ 'z' then 1
  else if c = '.' then 2
  else 3

/-- Maximal runs of same-class characters, in order. -/
def splitRuns : List Char → List (List Char)
  | [] => []
  | [c] => [[c]]
  | c :: d :: rest =>
      match splitRuns (d :: rest), decide (charClass d = charClass c) with
      | r :: rs, true => (c :: r) :: rs
      | rs, _ => [c] :: rs

def natOfDigits (l : List Char) : Nat :=
  l.foldl (fun acc c => acc * 10 + (c.toNat - '0'.toNat)) 0

/-- One run to a component: dots are dropped, digit runs become ints,
everything else stays a string. -/
def runToken : List Char → Option LVTok
  | [] => none
  | c :: cs =>
      if charClass c = 2 then none
      else if charClass c = 0 then some (.num (natOfDigits (c :: cs)))
      else some (.str (String.mk (c :: cs)))

/-- `LooseVersion.parse(s)`: the `self.version` component list. -/
def looseParse (s : String) : List LVTok :=
  (splitRuns s.data).filterMap runToken

/-- `LooseVersion(s)`.  `Version.__init__` only calls `parse` when the
string is truthy; for `''` the instance never gets a `version` attribute
and any comparison with it raises `AttributeError`.  `none` models that
broken instance. -/
def looseVersionOf (s : String) : Option (List LVTok) :=
  if s = "" then none else some (looseParse s)

/-- Python 2 `cmp` on components: ints numerically, strings
lexicographically, and any number sorts below any string. -/
def tokOrd : LVTok → LVTok → Ordering
  | .num a, .num b => compare a b
  | .num _, .str _ => .lt
  | .str _, .num _ => .gt
  | .str a, .str b => compare a b

/-- Python 2 `cmp` on the component lists (lexicographic; a proper prefix
sorts first). -/
def lvOrd : List LVTok → List LVTok → Ordering
  | [], [] => .eq
  | [], _ :: _ => .lt
  | _ :: _, [] => .gt
  | a :: as, b :: bs =>
      match tokOrd a b with
      | .eq => lvOrd as bs
      | o => o

def looseLe (a b : List LVTok) : Bool :=
  match lvOrd a b with
  | .gt => false
  | _ => true

def looseGe (a b : List LVTok) : Bool :=
  match lvOrd a b with
  | .lt => false
  | _ => true

/-! ## Version-constraint parsing -/

/-- Split a char list at the first occurrence of `sep`; `none` when the
separator does not occur. -/
def splitAtChar (sep : Char) : List Char → Option (List Char × List Char)
  | [] => none
  | c :: cs =>
      if c = sep then some ([], cs)
      else (splitAtChar sep cs).map (fun p => (c :: p.1, p.2))

/-- `mod, _, version = vstr.partition('=')` followed by
`if not version: version = mod; mod = ''`.  Returns `(mod, version)`. -/
def parseConstraint (vstr : String) : String × String :=
  let p :=
    match splitAtChar '=' vstr.data with
    | some ab => (String.mk ab.1, String.mk ab.2)
    | none => (vstr, "")
  if p.2 = "" then ("", p.1) else p

/-! ## Per-rule evaluation (the body of the loop in `audit`) -/

inductive Verdict : Type
  | success
  | failure
  | controlled
deriving DecidableEq

/-- The per-rule body of `audit`'s loop.  `query` is
`__salt__['pkg.version']`; it returns `''` for a package that is not
installed.  `.error` models an uncaught Python exception; `.ok none`
models a rule whose `type` is neither `'blacklist'` nor `'whitelist'`,
which the loop appends to no bucket. -/
def evalRule (query : String → String) (tag_data : Dict) :
    Except String (Option (Verdict × Dict)) :=
  if dHas tag_data "control" then .ok (some (.controlled, tag_data))
  else
    match alookup tag_data "name" with
    | none => .error "KeyError: name"
    | some name =>
      match alookup tag_data "type" with
      | none => .error "KeyError: type"
      | some audittype =>
        if audittype = "blacklist" then
          if query name ≠ "" then .ok (some (.failure, tag_data))
          else .ok (some (.success, tag_data))
        else if audittype = "whitelist" then
          match alookup tag_data "version" with
          | some vstr =>
            let mv := parseConstraint vstr
            if mv.1 = "<" then
              match looseVersionOf (query name), looseVersionOf mv.2 with
              | some a, some b =>
                  if looseLe a b then .ok (some (.success, tag_data))
                  else .ok (some (.failure, tag_data))
              | _, _ => .error "AttributeError: version"
            else if mv.1 = ">" then
              match looseVersionOf (query name), looseVersionOf mv.2 with
              | some a, some b =>
                  if looseGe a b then .ok (some (.success, tag_data))
                  else .ok (some (.failure, tag_data))
              | _, _ => .error "AttributeError: version"
            else if mv.1 = "" then
              if query name = mv.2 then .ok (some (.success, tag_data))
              else .ok (some (.failure, tag_data))
            else
              .ok (some (.failure, dSet tag_data "error" ("Invalid modifier " ++ mv.1)))
          | none =>
            if query name ≠ "" then .ok (some (.success, tag_data))
            else .ok (some (.failure, tag_data))
        else .ok none

structure RawBuckets : Type where
  success : List Dict
  failure : List Dict
  controlled : List Dict
deriving DecidableEq

def bucketAdd (b : RawBuckets) : Verdict → Dict → RawBuckets
  | .success, r => ⟨b.success ++ [r], b.failure, b.controlled⟩
  | .failure, r => ⟨b.success, b.failure ++ [r], b.controlled⟩
  | .controlled, r => ⟨b.success, b.failure, b.controlled ++ [r]⟩

/-- `for tag_data in __tags__[tag]: ...`. -/
def evalRules (query : String → String) : List Dict → RawBuckets → Except String RawBuckets
  | [], acc => .ok acc
  | r :: rs, acc =>
      match evalRule query r with
      | .error e => .error e
      | .ok none => evalRules query rs acc
      | .ok (some vr) => evalRules query rs (bucketAdd acc vr.1 vr.2)

/-! ## `fnmatch.fnmatch` (posix: no case folding) -/

/-- Split at the first `']'` (the closing bracket scan of
`fnmatch.translate`); `none` when there is no closing bracket. -/
def scanClose : List Char → Option (List Char × List Char)
  | [] => none
  | c :: rest =>
      if c = ']' then some ([], rest)
      else (scanClose rest).map (fun p => (c :: p.1, p.2))

/-- The bracket scan of `fnmatch.translate`, applied to what follows `'['`:
an optional leading `'!'` negates; a `']'` right after `'['` or `'[!'` is
literal content.  Returns `(negated, content, rest-of-pattern)`, or `none`
when no closing bracket exists (then `'['` is a literal). -/
def bracketSpan (l : List Char) : Option (Bool × List Char × List Char) :=
  match l with
  | '!' :: ']' :: rest => (scanClose rest).map (fun p => (true, ']' :: p.1, p.2))
  | '!' :: rest => (scanClose rest).map (fun p => (true, p.1, p.2))
  | ']' :: rest => (scanClose rest).map (fun p => (false, ']' :: p.1, p.2))
  | _ => (scanClose l).map (fun p => (false, p.1, p.2))

/-- Membership of a char in bracket content, with `a-b` ranges (a trailing
or leading `'-'` is literal, as in the generated regex class). -/
def inClass (c : Char) : List Char → Bool
  | a :: '-' :: b :: rest => (a ≤ c && c ≤ b) || inClass c rest
  | a :: rest => a = c || inClass c rest
  | [] => false

/-- Shell-glob matching as produced by `fnmatch.translate` + `re.match`
with the `\Z` anchor: `*`, `?`, bracket classes, everything else literal.
The first argument is fuel making the recursion structural: every
recursive call strictly shrinks `pattern.length + string.length`, so the
fuel supplied by `fnmatch` below is never exhausted and the `0` equation is
unreachable there. -/
def globMatch : Nat → List Char → List Char → Bool
  | 0, _, _ => false
  | _ + 1, [], s => s.isEmpty
  | fuel + 1, '*' :: ps, [] => globMatch fuel ps []
  | fuel + 1, '*' :: ps, c :: cs =>
      globMatch fuel ps (c :: cs) || globMatch fuel ('*' :: ps) cs
  | fuel + 1, '?' :: ps, s =>
      match s with
      | [] => false
      | _ :: cs => globMatch fuel ps cs
  | fuel + 1, '[' :: ps, s =>
      match bracketSpan ps, s with
      | none, [] => false
      | none, c :: cs => c = '[' && globMatch fuel ps cs
      | some _, [] => false
      | some nsr, c :: cs => (inClass c nsr.2.1 != nsr.1) && globMatch fuel nsr.2.2 cs
  | fuel + 1, p :: ps, s =>
      match s with
      | [] => false
      | c :: cs => p = c && globMatch fuel ps cs

/-- `fnmatch.fnmatch(name, pat)` on posix (`normcase` is the identity). -/
def fnmatch (name pat : String) : Bool :=
  globMatch (pat.data.length + name.data.length + 1) pat.data name.data

/-! ## Rule resolution (`_get_tags`) -/

/-- A per-package tag spec: either a bare tag string or a dict of fields
(`tag`, `version`, `control`, extras). -/
inductive TagSpec : Type
  | bare (tag : String)
  | detailed (fields : Dict)
deriving DecidableEq

/-- The host-selected rule bucket: a YAML sequence of dicts mapping package
name to `TagSpec` (well-formed: each a single entry), or — malformed yaml —
one dict mapping names to `TagSpec`s. -/
inductive Bucket : Type
  | seq (items : List (List (String × TagSpec)))
  | map (items : List (String × TagSpec))
deriving DecidableEq

/-- An audit spec: the `data` mapping (host fingerprint → bucket) plus the
remaining fields of the audit-spec dict (`description`, `alert`, `trigger`,
any extra metadata, as `meta`; `meta` never holds a `data` key). -/
structure AuditSpec : Type where
  data : List (String × Bucket)
  meta : Dict
deriving DecidableEq

/-- `tags_dict.get(distro, tags_dict.get('*', []))`. -/
def selectBucket (tags_dict : List (String × Bucket)) (distro : String) : Bucket :=
  match alookup tags_dict distro with
  | some b => b
  | none =>
      match alookup tags_dict "*" with
      | some b => b
      | none => .seq []

/-- Malformed-yaml tolerance: a dict bucket is converted to a list of
single-entry dicts (the `tmp.append({name: tag})` loop). -/
def normalizeBucket : Bucket → List (List (String × TagSpec))
  | .seq items => items
  | .map items => items.map (fun nt => [nt])

/-- `formatted_data = {'name': name, 'tag': tag, 'module': 'pkg', 'type':
toplist}` then `.update(tag_data)`, `.update(audit_data)`, `.pop('data')`.
The `data` entry added by the second update is removed again by the `pop`,
so only the audit spec's `meta` side matters. -/
def buildRule (name tag : String) (tag_data : Dict) (meta : Dict)
    (toplist : String) : Dict :=
  dPop
    (dUpdate
      (dUpdate [("name", name), ("tag", tag), ("module", "pkg"), ("type", toplist)]
        tag_data)
      meta)
    "data"

/-- Tag-indexed rule table, in insertion order. -/
abbrev TagTable := List (String × List Dict)

/-- `if tag not in ret: ret[tag] = []` followed by `ret[tag].append(r)`. -/
def tablePush : TagTable → String → Dict → TagTable
  | [], tag, r => [(tag, [r])]
  | (t, rs) :: rest, tag, r =>
      if t = tag then (t, rs ++ [r]) :: rest
      else (t, rs) :: tablePush rest tag r

/-- `for name, tag in item.iteritems(): ...`: build one rule per entry.
A detailed tag spec is deep-copied and its `tag` key popped —
`tag_data.pop('tag')` raises `KeyError` when the key is missing. -/
def resolveEntries (meta : Dict) (toplist : String) :
    List (String × TagSpec) → TagTable → Except String TagTable
  | [], ret => .ok ret
  | (name, tspec) :: rest, ret =>
      match tspec with
      | .bare tag =>
          resolveEntries meta toplist rest
            (tablePush ret tag (buildRule name tag [] meta toplist))
      | .detailed fields =>
          match alookup fields "tag" with
          | none => .error "KeyError: tag"
          | some tag =>
              resolveEntries meta toplist rest
                (tablePush ret tag (buildRule name tag (dPop fields "tag") meta toplist))

/-- `for item in tags: ...`. -/
def resolveItems (meta : Dict) (toplist : String) :
    List (List (String × TagSpec)) → TagTable → Except String TagTable
  | [], ret => .ok ret
  | item :: rest, ret =>
      match resolveEntries meta toplist item ret with
      | .error e => .error e
      | .ok ret2 => resolveItems meta toplist rest ret2

/-- Processing of one `(audit_id, audit_data)` pair; the audit id itself is
never used by the loop body. -/
def resolveAudit (distro toplist : String) (spec : AuditSpec) (ret : TagTable) :
    Except String TagTable :=
  resolveItems spec.meta toplist (normalizeBucket (selectBucket spec.data distro)) ret

/-- `for audit_dict in toplevel: for audit_id, audit_data in ...`. -/
def resolveCategory (distro toplist : String) :
    List (String × AuditSpec) → TagTable → Except String TagTable
  | [], ret => .ok ret
  | ida :: rest, ret =>
      match resolveAudit distro toplist ida.2 ret with
      | .error e => .error e
      | .ok ret2 => resolveCategory distro toplist rest ret2

/-- The merged policy: the `pkg:blacklist` / `pkg:whitelist` audit lists as
built by `_merge_yaml` (each entry in the Python lists is a single-entry
`{audit_id: audit_data}` dict; they are flattened to pairs here). -/
structure MergedPolicy : Type where
  blacklist : List (String × AuditSpec)
  whitelist : List (String × AuditSpec)
deriving DecidableEq

/-- `_get_tags(data)`, parameterized by `__grains__.get('osfinger')`.  The
two category keys of the merged dict are visited in a fixed order here
(Python 2 dict iteration order is unspecified; nothing below depends on
it). -/
def get_tags (data : MergedPolicy) (distro : String) : Except String TagTable :=
  match resolveCategory distro "blacklist" data.blacklist [] with
  | .error e => .error e
  | .ok t1 => resolveCategory distro "whitelist" data.whitelist t1

/-- One yaml policy document's `pkg` section; a category absent from the
document (or a document without a `pkg` key: both `none`) contributes
nothing. -/
structure PolicyDoc : Type where
  blacklist : Option (List (String × AuditSpec))
  whitelist : Option (List (String × AuditSpec))

/-- `_merge_yaml` folded over `data_list`: each document appends its
`(key, val)` pairs to the category's list, in document order. -/
def mergeDocs (docs : List PolicyDoc) : MergedPolicy :=
  ⟨(docs.map (fun d => d.blacklist.getD [])).flatten,
   (docs.map (fun d => d.whitelist.getD [])).flatten⟩

/-- `for tag in __tags__: if fnmatch.fnmatch(tag, tags): for tag_data in
__tags__[tag]: ...` (keys of the table are unique by construction, so
iterating entries matches iterating keys then indexing). -/
def evalTable (query : String → String) (tags : String) :
    TagTable → RawBuckets → Except String RawBuckets
  | [], acc => .ok acc
  | trs :: rest, acc =>
      if fnmatch trs.1 tags then
        match evalRules query trs.2 acc with
        | .error e => .error e
        | .ok acc2 => evalTable query tags rest acc2
      else evalTable query tags rest acc

/-! ## Non-verbose aggregation and the `audit` entry point -/

/-- A non-verbose `{tag: description}` entry (`description` may be the
Python `None`, i.e. `none`). -/
abbrev SFEntry := String × Option String

/-- A non-verbose `{tag: {'description': d, 'control': c}}` entry, as the
triple `(tag, description, control_reason)`. -/
abbrev CEntry := String × Option String × String

/-- `tag = tag_data['tag']` (KeyError when absent) and
`description = tag_data.get('description')`. -/
def projSF (r : Dict) : Except String SFEntry :=
  match alookup r "tag" with
  | none => .error "KeyError: tag"
  | some t => .ok (t, alookup r "description")

/-- As `projSF`, plus `control_reason = tag_data.get('control', '')`. -/
def projC (r : Dict) : Except String CEntry :=
  match alookup r "tag" with
  | none => .error "KeyError: tag"
  | some t => .ok (t, alookup r "description", (alookup r "control").getD "")

/-- The shape shared by the three non-verbose collapse loops: project each
record to its dedup key and keep first occurrences only (`seen` is the
`tags_descriptions` / `control_reasons` set). -/
def collapseBy {β : Type} [DecidableEq β] (proj : Dict → Except String β)
    (seen : List β) : List Dict → Except String (List β)
  | [] => .ok []
  | r :: rs =>
      match proj r with
      | .error e => .error e
      | .ok b =>
          if b ∈ seen then collapseBy proj seen rs
          else
            match collapseBy proj (b :: seen) rs with
            | .error e => .error e
            | .ok out => .ok (b :: out)

/-- The final report.  `vb` is the verbose shape (raw rule records); `agg`
the collapsed shape.  In both, the `Controlled` key is dropped when its
sequence is empty (`none`). -/
inductive Report : Type
  | vb (success failure : List Dict) (controlled : Option (List Dict))
  | agg (success failure : List SFEntry) (controlled : Option (List CEntry))
deriving DecidableEq

/-- End of `audit`: with `verbose` the buckets pass through untouched;
otherwise Failure, Success and Controlled are collapsed in that order.
Finally `if not ret['Controlled']: ret.pop('Controlled')`. -/
def aggregate (raw : RawBuckets) (verbose : Bool) : Except String Report :=
  if verbose then
    .ok (.vb raw.success raw.failure
      (if raw.controlled = [] then none else some raw.controlled))
  else
    match collapseBy projSF [] raw.failure with
    | .error e => .error e
    | .ok f =>
      match collapseBy projSF [] raw.success with
      | .error e => .error e
      | .ok s =>
        match collapseBy projC [] raw.controlled with
        | .error e => .error e
        | .ok c => .ok (.agg s f (if c = [] then none else some c))

/-- The whole `audit(data_list, tags, verbose)` entry point, with the
external collaborators (`__grains__.get('osfinger')` and
`__salt__['pkg.version']`) passed explicitly. -/
def audit (data_list : List PolicyDoc) (tags : String) (verbose : Bool)
    (distro : String) (query : String → String) : Except String Report :=
  match get_tags (mergeDocs data_list) distro with
  | .error e => .error e
  | .ok table =>
    match evalTable query tags table ⟨[], [], []⟩ with
    | .error e => .error e
    | .ok raw => aggregate raw verbose

/-! ## Facts about constraint parsing and per-rule evaluation -/

theorem parseConstraint_eq_prefix (v : String) (hv : v ≠ "") :
    parseConstraint ("=" ++ v) = ("", v) := by
  unfold parseConstraint
  have hd : ("=" ++ v).data = '=' :: v.data := by simp [String.data_append]
  rw [hd]
  have h1 : splitAtChar '=' ('=' :: v.data) = some ([], v.data) := by
    simp [splitAtChar]
  rw [h1]
  have h2 : String.mk v.data = v := rfl
  simp [h2, hv]

/-- C2 (amended): a whitelist rule whose version constraint is `"=" ++ v`
(empty prefix before `=`, `v` nonempty) is evaluated in the exact-match
form — `mod` becomes `''` after the swap, so the `elif not mod` branch
runs: Success iff the installed version string equals `v`.  It is not
routed to the invalid-modifier branch. -/
theorem C2_empty_prefix_is_exact (query : String → String) (r : Dict) (nm v : String)
    (hc : dHas r "control" = false) (hn : alookup r "name" = some nm)
    (ht : alookup r "type" = some "whitelist")
    (hv : alookup r "version" = some ("=" ++ v)) (hne : v ≠ "") :
    evalRule query r =
      .ok (some (if query nm = v then (.success, r) else (.failure, r))) := by
  unfold evalRule
  simp only [hc, hn, ht, hv, parseConstraint_eq_prefix v hne]
  by_cases h : query nm = v <;> simp [h]

/-- C2 witness: the claim-relevant instance `"=4.3.2"` with the package
installed at `4.3.2` evaluates via `C2_empty_prefix_is_exact` to Success. -/
theorem C2_empty_prefix_is_exact_witness :
    evalRule (fun n => if n = "rsh" then "4.3.2" else "")
        [("name", "rsh"), ("tag", "CIS-2.1.3"), ("module", "pkg"),
         ("type", "whitelist"), ("version", "=4.3.2")] =
      .ok (some (.success,
        [("name", "rsh"), ("tag", "CIS-2.1.3"), ("module", "pkg"),
         ("type", "whitelist"), ("version", "=4.3.2")])) := by
  have h := C2_empty_prefix_is_exact (fun n => if n = "rsh" then "4.3.2" else "")
    [("name", "rsh"), ("tag", "CIS-2.1.3"), ("module", "pkg"),
     ("type", "whitelist"), ("version", "=4.3.2")]
    "rsh" "4.3.2" (by decide) (by decide) (by decide) (by decide) (by decide)
  simpa using h

/-- C2 counterexample: the constraint `"=4.3.2"` (empty prefix before `=`)
is not treated as an invalid modifier: with the package installed at
`4.3.2` the rule is classified Success, and its record carries no `error`
field. -/
theorem C2_counterexample :
    evalRule (fun n => if n = "rsh" then "4.3.2" else "")
        [("name", "rsh"), ("tag", "CIS-2.1.3"), ("module", "pkg"),
         ("type", "whitelist"), ("version", "=4.3.2")] =
      .ok (some (.success,
        [("name", "rsh"), ("tag", "CIS-2.1.3"), ("module", "pkg"),
         ("type", "whitelist"), ("version", "=4.3.2")])) ∧
    alookup [("name", "rsh"), ("tag", "CIS-2.1.3"), ("module", "pkg"),
         ("type", "whitelist"), ("version", "=4.3.2")] "error" = none := by
  exact ⟨rfl, rfl⟩

/-- C3 (amended): a version constraint whose prefix before `=` is nonempty
and neither `<` nor `>` (for example `"~=4.3.2"`, prefix `"~"`) is an
invalid modifier: the rule is classified Failure on a deep copy augmented
with an `error` field describing the bad modifier — no exception — and the
loop continues with the remaining rules. -/
theorem C3_invalid_modifier (query : String → String) (r : Dict) (nm vstr m ver : String)
    (hc : dHas r "control" = false) (hn : alookup r "name" = some nm)
    (ht : alookup r "type" = some "whitelist") (hv : alookup r "version" = some vstr)
    (hp : parseConstraint vstr = (m, ver))
    (hm1 : m ≠ "") (hm2 : m ≠ "<") (hm3 : m ≠ ">") :
    evalRule query r = .ok (some (.failure, dSet r "error" ("Invalid modifier " ++ m))) ∧
    alookup (dSet r "error" ("Invalid modifier " ++ m)) "error" =
      some ("Invalid modifier " ++ m) ∧
    (∀ rest acc, evalRules query (r :: rest) acc =
        evalRules query rest (bucketAdd acc .failure (dSet r "error" ("Invalid modifier " ++ m)))) := by
  have h1 : evalRule query r =
      .ok (some (.failure, dSet r "error" ("Invalid modifier " ++ m))) := by
    unfold evalRule
    simp only [hc, hn, ht, hv, hp]
    simp [hm1, hm2, hm3]
  refine ⟨h1, ?_, ?_⟩
  · rw [alookup_dSet]; simp
  · intro rest acc
    simp [evalRules, h1]

/-- C3 witness: `"~=4.3.2"` (prefix `"~"`) at a concrete rule. -/
theorem C3_invalid_modifier_witness :
    evalRule (fun _ => "1.0")
        [("name", "rsh"), ("tag", "T"), ("module", "pkg"),
         ("type", "whitelist"), ("version", "~=4.3.2")] =
      .ok (some (.failure,
        [("name", "rsh"), ("tag", "T"), ("module", "pkg"),
         ("type", "whitelist"), ("version", "~=4.3.2"), ("error", "Invalid modifier ~")])) := by
  have h := (C3_invalid_modifier (fun _ => "1.0")
    [("name", "rsh"), ("tag", "T"), ("module", "pkg"),
     ("type", "whitelist"), ("version", "~=4.3.2")]
    "rsh" "~=4.3.2" "~" "4.3.2" (by decide) (by decide) (by decide) (by decide)
    (by decide) (by decide) (by decide) (by decide)).1
  simpa using h

/-- C3 counterexample: the constraint `"~4.3.2"` is not split as prefix
`"~"` — it contains no `=`, so after the swap it is evaluated in the
exact-match form against the literal string `"~4.3.2"`.  With the query
returning `"~4.3.2"` the rule is even classified Success, and with the
query returning `"1.0"` it is classified Failure with no `error` field on
its record. -/
theorem C3_counterexample :
    evalRule (fun _ => "~4.3.2")
        [("name", "rsh"), ("tag", "T"), ("module", "pkg"),
         ("type", "whitelist"), ("version", "~4.3.2")] =
      .ok (some (.success,
        [("name", "rsh"), ("tag", "T"), ("module", "pkg"),
         ("type", "whitelist"), ("version", "~4.3.2")])) ∧
    evalRule (fun _ => "1.0")
        [("name", "rsh"), ("tag", "T"), ("module", "pkg"),
         ("type", "whitelist"), ("version", "~4.3.2")] =
      .ok (some (.failure,
        [("name", "rsh"), ("tag", "T"), ("module", "pkg"),
         ("type", "whitelist"), ("version", "~4.3.2")])) ∧
    alookup [("name", "rsh"), ("tag", "T"), ("module", "pkg"),
        ("type", "whitelist"), ("version", "~4.3.2")] "error" = none := by
  exact ⟨rfl, rfl, rfl⟩

/-- C10: evaluating a whitelist rule with a `<=` or `>=` constraint against
an uninstalled package (query returns `''`) raises `AttributeError` —
`LooseVersion('')` never runs `parse`, so the comparison reads a missing
`version` attribute — instead of classifying the rule; only the exact form
(plain string equality) classifies the uninstalled case, as Failure. -/
theorem C10_uninstalled_range_crashes :
    evalRule (fun _ => "")
        [("name", "rsh"), ("tag", "T"), ("module", "pkg"),
         ("type", "whitelist"), ("version", "<=4.3.2")] =
      .error "AttributeError: version" ∧
    evalRule (fun _ => "")
        [("name", "rsh"), ("tag", "T"), ("module", "pkg"),
         ("type", "whitelist"), ("version", ">=4.3.2")] =
      .error "AttributeError: version" ∧
    evalRule (fun _ => "")
        [("name", "rsh"), ("tag", "T"), ("module", "pkg"),
         ("type", "whitelist"), ("version", "4.3.2")] =
      .ok (some (.failure,
        [("name", "rsh"), ("tag", "T"), ("module", "pkg"),
         ("type", "whitelist"), ("version", "4.3.2")])) := by
  exact ⟨rfl, rfl, rfl⟩

/-- C4: a rule without a `control` field: blacklist is Success iff the
query returns the empty string (absent), otherwise Failure; whitelist
without a `version` field is Success iff the query returns a non-empty
string (present), otherwise Failure. -/
theorem C4_presence_semantics (query : String → String) (r : Dict) (nm : String)
    (hc : dHas r "control" = false) (hn : alookup r "name" = some nm) :
    (alookup r "type" = some "blacklist" →
      evalRule query r =
        .ok (some (if query nm = "" then (.success, r) else (.failure, r)))) ∧
    (alookup r "type" = some "whitelist" → alookup r "version" = none →
      evalRule query r =
        .ok (some (if query nm = "" then (.failure, r) else (.success, r)))) := by
  constructor
  · intro ht
    unfold evalRule
    simp only [hc, hn, ht]
    by_cases h : query nm = "" <;> simp [h]
  · intro ht hv
    unfold evalRule
    simp only [hc, hn, ht, hv]
    by_cases h : query nm = "" <;> simp [h]

/-- C4 witness: an absent blacklisted package is Success; a present one is
Failure; a present whitelisted package (no version) is Success; an absent
one is Failure. -/
theorem C4_presence_semantics_witness :
    evalRule (fun _ => "")
        [("name", "telnet"), ("tag", "B"), ("module", "pkg"), ("type", "blacklist")] =
      .ok (some (.success,
        [("name", "telnet"), ("tag", "B"), ("module", "pkg"), ("type", "blacklist")])) ∧
    evalRule (fun _ => "1.2")
        [("name", "telnet"), ("tag", "B"), ("module", "pkg"), ("type", "blacklist")] =
      .ok (some (.failure,
        [("name", "telnet"), ("tag", "B"), ("module", "pkg"), ("type", "blacklist")])) ∧
    evalRule (fun _ => "1.2")
        [("name", "rsh"), ("tag", "W"), ("module", "pkg"), ("type", "whitelist")] =
      .ok (some (.success,
        [("name", "rsh"), ("tag", "W"), ("module", "pkg"), ("type", "whitelist")])) ∧
    evalRule (fun _ => "")
        [("name", "rsh"), ("tag", "W"), ("module", "pkg"), ("type", "whitelist")] =
      .ok (some (.failure,
        [("name", "rsh"), ("tag", "W"), ("module", "pkg"), ("type", "whitelist")])) := by
  refine ⟨?_, ?_, ?_, ?_⟩
  · have h := (C4_presence_semantics (fun _ => "")
      [("name", "telnet"), ("tag", "B"), ("module", "pkg"), ("type", "blacklist")]
      "telnet" (by decide) (by decide)).1 (by decide)
    simpa using h
  · have h := (C4_presence_semantics (fun _ => "1.2")
      [("name", "telnet"), ("tag", "B"), ("module", "pkg"), ("type", "blacklist")]
      "telnet" (by decide) (by decide)).1 (by decide)
    simpa using h
  · have h := (C4_presence_semantics (fun _ => "1.2")
      [("name", "rsh"), ("tag", "W"), ("module", "pkg"), ("type", "whitelist")]
      "rsh" (by decide) (by decide)).2 (by decide) (by decide)
    simpa using h
  · have h := (C4_presence_semantics (fun _ => "")
      [("name", "rsh"), ("tag", "W"), ("module", "pkg"), ("type", "whitelist")]
      "rsh" (by decide) (by decide)).2 (by decide) (by decide)
    simpa using h

/-! ## Facts about rule resolution -/

/-- C1 (amended): lookup in a resolved rule built by `_get_tags`: start
from the base `{name, tag, module: 'pkg', type: toplist}`, overlay the
per-item tag-spec fields, then overlay the audit-spec fields, and remove
`data` last — so whenever a per-item field has the same name as an
audit-spec-level field, the audit-spec-level value (not the per-item one)
is the value present in the resulting rule. -/
theorem C1_overlay_order (name tag : String) (tag_data meta : Dict)
    (toplist k : String) :
    alookup (buildRule name tag tag_data meta toplist) k =
      if k = "data" then none
      else
        (alookup meta k).orElse (fun _ =>
          (alookup tag_data k).orElse (fun _ =>
            alookup [("name", name), ("tag", tag), ("module", "pkg"), ("type", toplist)] k)) := by
  unfold buildRule
  rw [alookup_dPop, alookup_dUpdate, alookup_dUpdate]

/-- C1 counterexample: an audit spec carrying `description: 'specD'` and a
package item whose tag spec carries `description: 'itemD'`.  In the
resolved rule the audit-spec value `'specD'` is present, not the per-item
value `'itemD'` — `formatted_data.update(audit_data)` runs after
`formatted_data.update(tag_data)`, so audit-spec fields win, contradicting
the claim that per-item fields win. -/
theorem C1_counterexample :
    get_tags
        ⟨[],
         [("rsh",
           ⟨[("*", Bucket.seq
               [[("rsh", TagSpec.detailed [("tag", "CIS-2.1.3"), ("description", "itemD")])]])],
            [("description", "specD")]⟩)]⟩
        "CentOS Linux-6" =
      .ok [("CIS-2.1.3",
        [[("name", "rsh"), ("tag", "CIS-2.1.3"), ("module", "pkg"),
          ("type", "whitelist"), ("description", "specD")]])] ∧
    alookup [("name", "rsh"), ("tag", "CIS-2.1.3"), ("module", "pkg"),
        ("type", "whitelist"), ("description", "specD")] "description" = some "specD" ∧
    alookup [("name", "rsh"), ("tag", "CIS-2.1.3"), ("module", "pkg"),
        ("type", "whitelist"), ("description", "specD")] "description" ≠ some "itemD" := by
  exact ⟨rfl, rfl, by decide⟩

/-- C6: bucket selection `tags_dict.get(distro, tags_dict.get('*', []))` is
exact-match-first: a literal fingerprint key wins (no condition on whether
a `'*'` key also exists); otherwise the `'*'` key is used; with neither,
the audit contributes zero resolved rules. -/
theorem C6_bucket_selection (d : List (String × Bucket)) (distro : String)
    (b : Bucket) (meta : Dict) (toplist : String) (ret : TagTable) :
    (alookup d distro = some b → selectBucket d distro = b) ∧
    (alookup d distro = none → alookup d "*" = some b → selectBucket d distro = b) ∧
    (alookup d distro = none → alookup d "*" = none →
      selectBucket d distro = Bucket.seq [] ∧
      resolveAudit distro toplist ⟨d, meta⟩ ret = .ok ret) := by
  refine ⟨?_, ?_, ?_⟩
  · intro h
    unfold selectBucket
    rw [h]
  · intro h1 h2
    unfold selectBucket
    rw [h1, h2]
  · intro h1 h2
    have hsel : selectBucket d distro = Bucket.seq [] := by
      unfold selectBucket
      rw [h1, h2]
    refine ⟨hsel, ?_⟩
    unfold resolveAudit
    rw [hsel]
    rfl

/-- C6 witness: a `data` dict with both the literal fingerprint and `'*'`
selects the literal bucket; a fingerprint with only `'*'` present selects
the `'*'` bucket; with neither, resolution of the audit returns the table
unchanged. -/
theorem C6_bucket_selection_witness :
    selectBucket
        [("CentOS Linux-6", Bucket.seq [[("a", TagSpec.bare "t1")]]),
         ("*", Bucket.seq [[("b", TagSpec.bare "t2")]])] "CentOS Linux-6" =
      Bucket.seq [[("a", TagSpec.bare "t1")]] ∧
    selectBucket
        [("CentOS Linux-6", Bucket.seq [[("a", TagSpec.bare "t1")]]),
         ("*", Bucket.seq [[("b", TagSpec.bare "t2")]])] "Debian-8" =
      Bucket.seq [[("b", TagSpec.bare "t2")]] ∧
    resolveAudit "Debian-8" "whitelist"
        ⟨[("CentOS Linux-6", Bucket.seq [[("a", TagSpec.bare "t1")]])], []⟩ [] =
      .ok [] := by
  refine ⟨?_, ?_, ?_⟩
  · exact (C6_bucket_selection _ "CentOS Linux-6" _ [] "whitelist" []).1 (by decide)
  · exact (C6_bucket_selection _ "Debian-8" _ [] "whitelist" []).2.1 (by decide) (by decide)
  · exact ((C6_bucket_selection _ "Debian-8" (Bucket.seq []) [] "whitelist" []).2.2
      (by decide) (by decide)).2

/-- C8: when the host-selected bucket is a dict (name → TagSpec) instead of
a sequence, `_get_tags` converts it to the equivalent list of single-entry
dicts; resolving the audit gives exactly the same result (same resolved
rules, same table, or the same error) as the well-formed sequence shape,
and the conversion itself cannot fail. -/
theorem C8_map_bucket_equivalent (meta : Dict) (distro toplist : String)
    (d d2 : List (String × Bucket)) (m : List (String × TagSpec)) (ret : TagTable)
    (hsel : selectBucket d distro = Bucket.map m)
    (hsel2 : selectBucket d2 distro = Bucket.seq (m.map (fun nt => [nt]))) :
    resolveAudit distro toplist ⟨d, meta⟩ ret =
      resolveAudit distro toplist ⟨d2, meta⟩ ret := by
  unfold resolveAudit
  rw [hsel, hsel2]
  rfl

/-- C8 witness: a concrete malformed (dict-shaped) bucket resolves to the
same table as its single-entry-sequence normal form. -/
theorem C8_map_bucket_equivalent_witness :
    resolveAudit "F" "blacklist"
        ⟨[("F", Bucket.map [("p1", TagSpec.bare "t1"), ("p2", TagSpec.bare "t2")])], []⟩ [] =
      resolveAudit "F" "blacklist"
        ⟨[("F", Bucket.seq [[("p1", TagSpec.bare "t1")], [("p2", TagSpec.bare "t2")]])], []⟩ [] := by
  exact C8_map_bucket_equivalent [] "F" "blacklist" _ _
    [("p1", TagSpec.bare "t1"), ("p2", TagSpec.bare "t2")] [] (by decide) (by decide)

theorem resolveEntries_tag_key (meta : Dict) (toplist : String)
    (entries : List (String × TagSpec)) (ret : TagTable) :
    ((∃ name fields, (name, TagSpec.detailed fields) ∈ entries ∧
        alookup fields "tag" = none) →
      resolveEntries meta toplist entries ret = .error "KeyError: tag") ∧
    ((∀ name fields, (name, TagSpec.detailed fields) ∈ entries →
        (alookup fields "tag").isSome) →
      ∃ t, resolveEntries meta toplist entries ret = .ok t) := by
  induction entries generalizing ret with
  | nil =>
      constructor
      · rintro ⟨name, fields, h, _⟩
        cases h
      · intro _
        exact ⟨ret, rfl⟩
  | cons e rest ih =>
      obtain ⟨name, tspec⟩ := e
      constructor
      · rintro ⟨n2, f2, hmem, hnone⟩
        cases tspec with
        | bare tag =>
            have htail : (n2, TagSpec.detailed f2) ∈ rest := by
              rcases List.mem_cons.mp hmem with heq | h
              · rw [Prod.mk.injEq] at heq
                exact absurd heq.2 (by intro hh; cases hh)
              · exact h
            simp only [resolveEntries]
            exact (ih _).1 ⟨n2, f2, htail, hnone⟩
        | detailed fields =>
            cases hf : alookup fields "tag" with
            | none => simp [resolveEntries, hf]
            | some t =>
                have htail : (n2, TagSpec.detailed f2) ∈ rest := by
                  rcases List.mem_cons.mp hmem with heq | h
                  · exfalso
                    rw [Prod.mk.injEq] at heq
                    have hf2 : f2 = fields := by
                      have := heq.2
                      injection this
                    rw [hf2, hf] at hnone
                    cases hnone
                  · exact h
                simp only [resolveEntries, hf]
                exact (ih _).1 ⟨n2, f2, htail, hnone⟩
      · intro hall
        cases tspec with
        | bare tag =>
            simp only [resolveEntries]
            exact (ih _).2 (fun n f h => hall n f (List.mem_cons_of_mem _ h))
        | detailed fields =>
            have hs := hall name fields (List.mem_cons_self _ _)
            cases hf : alookup fields "tag" with
            | none =>
                rw [hf] at hs
                cases hs
            | some t =>
                simp only [resolveEntries, hf]
                exact (ih _).2 (fun n f h => hall n f (List.mem_cons_of_mem _ h))

/-- C9: resolution is not total.  `tag = tag_data.pop('tag')` is run
unconditionally for every dict-shaped tag spec, so a detailed tag spec
without a `tag` key makes resolution raise `KeyError` (modelled
`.error "KeyError: tag"`) instead of degrading to a reported Failure;
conversely, when every dict-shaped tag spec in the bucket has a `tag` key,
resolution of those entries succeeds.  The last conjunct shows the error
escaping the whole `_get_tags` on a concrete policy. -/
theorem C9_missing_tag_raises (meta : Dict) (toplist : String)
    (entries : List (String × TagSpec)) (ret : TagTable) :
    ((∃ name fields, (name, TagSpec.detailed fields) ∈ entries ∧
        alookup fields "tag" = none) →
      resolveEntries meta toplist entries ret = .error "KeyError: tag") ∧
    ((∀ name fields, (name, TagSpec.detailed fields) ∈ entries →
        (alookup fields "tag").isSome) →
      ∃ t, resolveEntries meta toplist entries ret = .ok t) ∧
    get_tags
        ⟨[("bad",
           ⟨[("*", Bucket.seq [[("pkgx", TagSpec.detailed [("version", "1.0")])]])], []⟩)],
         []⟩ "F" =
      .error "KeyError: tag" := by
  exact ⟨(resolveEntries_tag_key meta toplist entries ret).1,
    (resolveEntries_tag_key meta toplist entries ret).2, rfl⟩

/-- C9 witness: a concrete tagless detailed item errors; a tagged one
succeeds. -/
theorem C9_missing_tag_raises_witness :
    resolveEntries [] "whitelist" [("p", TagSpec.detailed [("version", "1.0")])] [] =
      .error "KeyError: tag" ∧
    ∃ t, resolveEntries [] "whitelist" [("p", TagSpec.detailed [("tag", "T")])] [] = .ok t := by
  constructor
  · exact (C9_missing_tag_raises [] "whitelist"
      [("p", TagSpec.detailed [("version", "1.0")])] []).1
      ⟨"p", [("version", "1.0")], by decide, by decide⟩
  · exact (C9_missing_tag_raises [] "whitelist"
      [("p", TagSpec.detailed [("tag", "T")])] []).2.1
      (by
        intro n f h
        rcases List.mem_cons.mp h with heq | h2
        · rw [Prod.mk.injEq] at heq
          have hf : f = [("tag", "T")] := by
            have := heq.2
            injection this
          rw [hf]
          decide
        · cases h2)

/-! ## Facts about the evaluation loop (controlled rules) -/

theorem bucketAdd_controlled_mono (acc : RawBuckets) (v : Verdict) (r x : Dict)
    (hx : x ∈ acc.controlled) : x ∈ (bucketAdd acc v r).controlled := by
  cases v with
  | success => exact hx
  | failure => exact hx
  | controlled =>
      simp only [bucketAdd, List.mem_append]
      exact Or.inl hx

theorem evalRules_controlled_mono (query : String → String) (rs : List Dict)
    (acc b : RawBuckets) (x : Dict) (h : evalRules query rs acc = .ok b)
    (hx : x ∈ acc.controlled) : x ∈ b.controlled := by
  induction rs generalizing acc with
  | nil =>
      rw [evalRules] at h
      cases h
      exact hx
  | cons r rest ih =>
      rw [evalRules] at h
      cases he : evalRule query r with
      | error e =>
          rw [he] at h
          cases h
      | ok o =>
          rw [he] at h
          cases o with
          | none => exact ih _ h hx
          | some vr => exact ih _ h (bucketAdd_controlled_mono acc vr.1 vr.2 x hx)

theorem evalRule_of_control (r : Dict) (hc : dHas r "control" = true)
    (query : String → String) :
    evalRule query r = .ok (some (.controlled, r)) := by
  unfold evalRule
  rw [hc]
  simp

theorem evalRules_controlled_mem (query : String → String) (rs : List Dict)
    (acc b : RawBuckets) (r : Dict) (hr : r ∈ rs) (hc : dHas r "control" = true)
    (h : evalRules query rs acc = .ok b) : r ∈ b.controlled := by
  induction rs generalizing acc with
  | nil => cases hr
  | cons r0 rest ih =>
      rw [evalRules] at h
      rcases List.mem_cons.mp hr with heq | htail
      · subst heq
        rw [evalRule_of_control r hc query] at h
        refine evalRules_controlled_mono query rest _ b r h ?_
        simp [bucketAdd]
      · cases he : evalRule query r0 with
        | error e =>
            rw [he] at h
            cases h
        | ok o =>
            rw [he] at h
            cases o with
            | none => exact ih _ htail h
            | some vr => exact ih _ htail h

theorem evalTable_controlled_mono (query : String → String) (tags : String)
    (table : TagTable) (acc b : RawBuckets) (x : Dict)
    (h : evalTable query tags table acc = .ok b) (hx : x ∈ acc.controlled) :
    x ∈ b.controlled := by
  induction table generalizing acc with
  | nil =>
      rw [evalTable] at h
      cases h
      exact hx
  | cons trs rest ih =>
      rw [evalTable] at h
      by_cases hf : fnmatch trs.1 tags
      · rw [if_pos hf] at h
        cases he : evalRules query trs.2 acc with
        | error e =>
            rw [he] at h
            cases h
        | ok acc2 =>
            rw [he] at h
            exact ih _ h (evalRules_controlled_mono query trs.2 acc acc2 x he hx)
      · rw [if_neg hf] at h
        exact ih _ h hx

theorem evalTable_controlled_mem (query : String → String) (tags : String)
    (table : TagTable) (acc b : RawBuckets) (t : String) (rules : List Dict) (r : Dict)
    (hmem : (t, rules) ∈ table) (hr : r ∈ rules) (hm : fnmatch t tags = true)
    (hc : dHas r "control" = true) (h : evalTable query tags table acc = .ok b) :
    r ∈ b.controlled := by
  induction table generalizing acc with
  | nil => cases hmem
  | cons trs rest ih =>
      rw [evalTable] at h
      rcases List.mem_cons.mp hmem with heq | htail
      · subst heq
        rw [if_pos hm] at h
        cases he : evalRules query rules acc with
        | error e =>
            rw [he] at h
            cases h
        | ok acc2 =>
            rw [he] at h
            exact evalTable_controlled_mono query tags rest acc2 b r h
              (evalRules_controlled_mem query rules acc acc2 r hr hc he)
      · by_cases hf : fnmatch trs.1 tags
        · rw [if_pos hf] at h
          cases he : evalRules query trs.2 acc with
          | error e =>
              rw [he] at h
              cases h
          | ok acc2 =>
              rw [he] at h
              exact ih _ htail h
        · rw [if_neg hf] at h
          exact ih _ htail h

/-- C5: a rule in the tag table under a tag matching the filter and
carrying a `control` field always lands in the Controlled bucket, and its
per-rule evaluation is the `control` short-circuit — the same
`(controlled, r)` outcome for every package-query function, so no package
query and no version-constraint check influences it. -/
theorem C5_control_short_circuits (query : String → String) (tags : String)
    (table : TagTable) (t : String) (rules : List Dict) (r : Dict) (b : RawBuckets)
    (hmem : (t, rules) ∈ table) (hr : r ∈ rules) (hm : fnmatch t tags = true)
    (hc : dHas r "control" = true)
    (hrun : evalTable query tags table ⟨[], [], []⟩ = .ok b) :
    r ∈ b.controlled ∧
    (∀ query2 : String → String, evalRule query2 r = .ok (some (.controlled, r))) := by
  exact ⟨evalTable_controlled_mem query tags table ⟨[], [], []⟩ b t rules r
      hmem hr hm hc hrun,
    fun query2 => evalRule_of_control r hc query2⟩

/-- C5 witness: a controlled whitelist rule with a version constraint that
would crash on evaluation (`<=4.3.2` against an uninstalled package) is
still Controlled: neither the query nor the constraint is consulted. -/
theorem C5_control_short_circuits_witness :
    [("name", "x"), ("tag", "T"), ("type", "whitelist"), ("version", "<=4.3.2"),
       ("control", "accepted risk")] ∈
      (RawBuckets.mk [] []
        [[("name", "x"), ("tag", "T"), ("type", "whitelist"), ("version", "<=4.3.2"),
          ("control", "accepted risk")]]).controlled ∧
    (∀ query2 : String → String,
      evalRule query2
          [("name", "x"), ("tag", "T"), ("type", "whitelist"), ("version", "<=4.3.2"),
           ("control", "accepted risk")] =
        .ok (some (.controlled,
          [("name", "x"), ("tag", "T"), ("type", "whitelist"), ("version", "<=4.3.2"),
           ("control", "accepted risk")]))) := by
  exact C5_control_short_circuits (fun _ => "") "*"
    [("T", [[("name", "x"), ("tag", "T"), ("type", "whitelist"), ("version", "<=4.3.2"),
      ("control", "accepted risk")]])]
    "T"
    [[("name", "x"), ("tag", "T"), ("type", "whitelist"), ("version", "<=4.3.2"),
      ("control", "accepted risk")]]
    [("name", "x"), ("tag", "T"), ("type", "whitelist"), ("version", "<=4.3.2"),
      ("control", "accepted risk")]
    (RawBuckets.mk [] []
      [[("name", "x"), ("tag", "T"), ("type", "whitelist"), ("version", "<=4.3.2"),
        ("control", "accepted risk")]])
    (by decide) (by decide) (by decide) (by decide) rfl

/-! ## Facts about non-verbose aggregation -/

/-- First-occurrence dedup with an explicit seen set — the loop shape the
non-verbose collapse uses in the source. -/
def firstDedupAux {α : Type} [DecidableEq α] (seen : List α) : List α → List α
  | [] => []
  | a :: l =>
      if a ∈ seen then firstDedupAux seen l
      else a :: firstDedupAux (a :: seen) l

theorem firstDedupAux_not_mem_seen {α : Type} [DecidableEq α] (seen : List α)
    (l : List α) (x : α) (hx : x ∈ firstDedupAux seen l) : x ∉ seen := by
  induction l generalizing seen with
  | nil =>
      simp only [firstDedupAux] at hx
      cases hx
  | cons a l ih =>
      simp only [firstDedupAux] at hx
      by_cases ha : a ∈ seen
      · rw [if_pos ha] at hx
        exact ih _ hx
      · rw [if_neg ha] at hx
        rcases List.mem_cons.mp hx with heq | ht
        · subst heq
          exact ha
        · intro hs
          exact (ih _ ht) (List.mem_cons_of_mem _ hs)

theorem firstDedupAux_nodup {α : Type} [DecidableEq α] (seen : List α) (l : List α) :
    (firstDedupAux seen l).Nodup := by
  induction l generalizing seen with
  | nil =>
      simp only [firstDedupAux]
      exact List.nodup_nil
  | cons a l ih =>
      simp only [firstDedupAux]
      by_cases ha : a ∈ seen
      · rw [if_pos ha]
        exact ih seen
      · rw [if_neg ha]
        refine List.nodup_cons.mpr ⟨?_, ih _⟩
        intro hmem
        exact (firstDedupAux_not_mem_seen _ _ _ hmem) (List.mem_cons_self a seen)

/-- Each collapse loop computes exactly the first-occurrence dedup of the
projected records, provided every record projects cleanly. -/
theorem collapseBy_eq_dedup {β : Type} [DecidableEq β] (projE : Dict → Except String β)
    (projT : Dict → β) (rs : List Dict) (seen : List β)
    (hproj : ∀ r ∈ rs, projE r = .ok (projT r)) :
    collapseBy projE seen rs = .ok (firstDedupAux seen (rs.map projT)) := by
  induction rs generalizing seen with
  | nil => simp [collapseBy, firstDedupAux]
  | cons r rest ih =>
      have hr := hproj r (List.mem_cons_self r rest)
      have hrest : ∀ x ∈ rest, projE x = .ok (projT x) :=
        fun x hx => hproj x (List.mem_cons_of_mem _ hx)
      simp only [collapseBy, hr, List.map_cons, firstDedupAux]
      by_cases hb : projT r ∈ seen
      · rw [if_pos hb, if_pos hb]
        exact ih _ hrest
      · rw [if_neg hb, if_neg hb, ih _ hrest]

theorem projSF_total (r : Dict) (h : (alookup r "tag").isSome) :
    projSF r = .ok ((alookup r "tag").getD "", alookup r "description") := by
  cases ht : alookup r "tag" with
  | none =>
      rw [ht] at h
      cases h
  | some t => simp [projSF, ht]

theorem projC_total (r : Dict) (h : (alookup r "tag").isSome) :
    projC r = .ok ((alookup r "tag").getD "", alookup r "description",
      (alookup r "control").getD "") := by
  cases ht : alookup r "tag" with
  | none =>
      rw [ht] at h
      cases h
  | some t => simp [projC, ht]

/-- C7: with `verbose` every rule record passes through unchanged and in
original order (the raw Success/Failure lists verbatim; Controlled verbatim
unless empty, in which case the key is dropped); without `verbose`, Success
and Failure collapse to the `(tag, description)` entries deduplicated by
that pair with first-occurrence order — hence `Nodup` — and Controlled
collapses likewise by the `(tag, description, control)` triple. -/
theorem C7_aggregation (raw : RawBuckets)
    (hS : ∀ r ∈ raw.success, (alookup r "tag").isSome)
    (hF : ∀ r ∈ raw.failure, (alookup r "tag").isSome)
    (hC : ∀ r ∈ raw.controlled, (alookup r "tag").isSome) :
    aggregate raw true = .ok (.vb raw.success raw.failure
      (if raw.controlled = [] then none else some raw.controlled)) ∧
    aggregate raw false = .ok (.agg
      (firstDedupAux []
        (raw.success.map (fun r => ((alookup r "tag").getD "", alookup r "description"))))
      (firstDedupAux []
        (raw.failure.map (fun r => ((alookup r "tag").getD "", alookup r "description"))))
      (if firstDedupAux []
            (raw.controlled.map (fun r =>
              ((alookup r "tag").getD "", alookup r "description",
                (alookup r "control").getD ""))) = []
        then none
        else some (firstDedupAux []
          (raw.controlled.map (fun r =>
            ((alookup r "tag").getD "", alookup r "description",
              (alookup r "control").getD "")))))) ∧
    (firstDedupAux []
      (raw.success.map (fun r => ((alookup r "tag").getD "", alookup r "description")))).Nodup ∧
    (firstDedupAux []
      (raw.failure.map (fun r => ((alookup r "tag").getD "", alookup r "description")))).Nodup ∧
    (firstDedupAux []
      (raw.controlled.map (fun r =>
        ((alookup r "tag").getD "", alookup r "description",
          (alookup r "control").getD "")))).Nodup := by
  refine ⟨by simp [aggregate], ?_, firstDedupAux_nodup _ _, firstDedupAux_nodup _ _,
    firstDedupAux_nodup _ _⟩
  have hf := collapseBy_eq_dedup projSF
    (fun r => ((alookup r "tag").getD "", alookup r "description")) raw.failure []
    (fun r hr => projSF_total r (hF r hr))
  have hs := collapseBy_eq_dedup projSF
    (fun r => ((alookup r "tag").getD "", alookup r "description")) raw.success []
    (fun r hr => projSF_total r (hS r hr))
  have hc := collapseBy_eq_dedup projC
    (fun r => ((alookup r "tag").getD "", alookup r "description",
      (alookup r "control").getD "")) raw.controlled []
    (fun r hr => projC_total r (hC r hr))
  simp only [aggregate, Bool.false_eq_true, if_false, hf, hs, hc]

/-- C7 witness: two Success records sharing `(tag, description)` collapse
to one non-verbose entry, while the verbose report carries all records
untouched. -/
theorem C7_aggregation_witness :
    aggregate
        (RawBuckets.mk
          [[("name", "n1"), ("tag", "T1"), ("type", "whitelist"), ("description", "D")],
           [("name", "n2"), ("tag", "T1"), ("type", "whitelist"), ("description", "D")],
           [("name", "n3"), ("tag", "T2"), ("type", "whitelist")]]
          [[("name", "n4"), ("tag", "T3"), ("type", "blacklist"), ("description", "D3")]]
          [[("name", "n5"), ("tag", "T4"), ("control", "why"), ("description", "D4")]])
        true =
      .ok (.vb
        [[("name", "n1"), ("tag", "T1"), ("type", "whitelist"), ("description", "D")],
         [("name", "n2"), ("tag", "T1"), ("type", "whitelist"), ("description", "D")],
         [("name", "n3"), ("tag", "T2"), ("type", "whitelist")]]
        [[("name", "n4"), ("tag", "T3"), ("type", "blacklist"), ("description", "D3")]]
        (some [[("name", "n5"), ("tag", "T4"), ("control", "why"), ("description", "D4")]])) ∧
    aggregate
        (RawBuckets.mk
          [[("name", "n1"), ("tag", "T1"), ("type", "whitelist"), ("description", "D")],
           [("name", "n2"), ("tag", "T1"), ("type", "whitelist"), ("description", "D")],
           [("name", "n3"), ("tag", "T2"), ("type", "whitelist")]]
          [[("name", "n4"), ("tag", "T3"), ("type", "blacklist"), ("description", "D3")]]
          [[("name", "n5"), ("tag", "T4"), ("control", "why"), ("description", "D4")]])
        false =
      .ok (.agg
        [("T1", some "D"), ("T2", none)]
        [("T3", some "D3")]
        (some [("T4", some "D4", "why")])) := by
  have h := C7_aggregation
    (RawBuckets.mk
      [[("name", "n1"), ("tag", "T1"), ("type", "whitelist"), ("description", "D")],
       [("name", "n2"), ("tag", "T1"), ("type", "whitelist"), ("description", "D")],
       [("name", "n3"), ("tag", "T2"), ("type", "whitelist")]]
      [[("name", "n4"), ("tag", "T3"), ("type", "blacklist"), ("description", "D3")]]
      [[("name", "n5"), ("tag", "T4"), ("control", "why"), ("description", "D4")]])
    (by decide) (by decide) (by decide)
  exact ⟨h.1, h.2.1⟩

end Nova
